import Mathlib

/-!
# GetLatestVersion (update.go)

A shallow embedding of `GetLatestVersion` from `update.go` together with the
parts of the Go standard library it calls (`regexp.FindSubmatch` on the
pattern `"client_revision":(\d+),`, `strconv.ParseInt`, the `uint32`
conversion, `fmt.Errorf` and `defer`), followed by the theorems that settle
the claims C1 .. C10 about it.

Byte strings (`[]byte`, and Go strings used as byte strings) are lists of
byte values.  HTTP is modelled by explicit state passing: the collaborators
are parameters and every effect is recorded in a trace.
-/

namespace Whatsmeow

/-- A byte string: the list of its byte values. -/
abbrev Bytes := List Nat

/-- The bytes of an ASCII string literal. -/
def bytesOf (s : String) : Bytes := s.toList.map Char.toNat

/-! ## strconv -/

/-- The `Err` field of a `strconv.NumError`. -/
inductive NumErrKind where
  | ErrSyntax
  | ErrRange
  | base
  | bitSize
  deriving DecidableEq

/-- Go `*strconv.NumError`: the failing function, the input and the reason. -/
structure NumError where
  Func : String
  Num : Bytes
  Err : NumErrKind
  deriving DecidableEq

/-- Go `lower(c)` of strconv: `c | ('x' - 'X')`, i.e. bit 0x20 set. -/
def lower (c : Nat) : Nat := if (c / 32) % 2 = 0 then c + 32 else c

/-- The digit loop of `strconv.ParseUint` (`for _, c := range []byte(s)`) for
a base in 2..36, started at the accumulator `n`.  `uint64` arithmetic is
`Nat` arithmetic modulo `2^64`.  Returns the value and the error kind. -/
def parseUintLoop (base cutoff maxVal : Nat) : Nat → Bytes → Nat × Option NumErrKind
  | n, [] => (n, none)
  | n, c :: cs =>
    let d? : Option Nat :=
      if 48 ≤ c ∧ c ≤ 57 then some (c - 48)
      else if 97 ≤ lower c ∧ lower c ≤ 122 then some (lower c - 97 + 10)
      else none
    match d? with
    | none => (0, some .ErrSyntax)
    | some d =>
      if d ≥ base % 256 then (0, some .ErrSyntax)
      else if n ≥ cutoff then (maxVal, some .ErrRange)
      else
        let n' := (n * base) % 2 ^ 64
        let n1 := (n' + d) % 2 ^ 64
        if n1 < n' ∨ n1 > maxVal then (maxVal, some .ErrRange)
        else parseUintLoop base cutoff maxVal n1 cs

/-- Go `strconv.ParseUint(s, base, bitSize)` for `2 ≤ base ≤ 36`.  Base 0
(prefix detection and underscores) is not used by `update.go` and is reported
as a base error here, as is every other base outside 2..36. -/
def ParseUint (s : Bytes) (base bitSize : Nat) : Nat × Option NumError :=
  if s = [] then (0, some ⟨"ParseUint", s, .ErrSyntax⟩)
  else if ¬ (2 ≤ base ∧ base ≤ 36) then (0, some ⟨"ParseUint", s, .base⟩)
  else if bitSize = 0 ∨ bitSize > 64 then (0, some ⟨"ParseUint", s, .bitSize⟩)
  else
    let cutoff := (2 ^ 64 - 1) / base + 1
    let maxVal := 2 ^ bitSize - 1
    match parseUintLoop base cutoff maxVal 0 s with
    | (n, none) => (n, none)
    | (n, some k) => (n, some ⟨"ParseUint", s, k⟩)

/-- Go conversion `int64(x)`: the value modulo `2^64` read as two's complement. -/
def int64 (x : Int) : Int :=
  let m := x % 2 ^ 64
  if m ≥ 2 ^ 63 then m - 2 ^ 64 else m

/-- Go `strconv.ParseInt(s, base, bitSize)` (for `bitSize ≠ 0`). -/
def ParseInt (s : Bytes) (base bitSize : Nat) : Int × Option NumError :=
  match s with
  | [] => (0, some ⟨"ParseInt", s, .ErrSyntax⟩)
  | c :: cs =>
    let neg : Bool := c = 45
    let s' : Bytes := if c = 43 ∨ c = 45 then cs else s
    match ParseUint s' base bitSize with
    | (un, err) =>
      match err with
      | some ⟨_, _, .ErrSyntax⟩ => (0, some ⟨"ParseInt", s, .ErrSyntax⟩)
      | some ⟨_, _, .base⟩ => (0, some ⟨"ParseInt", s, .base⟩)
      | some ⟨_, _, .bitSize⟩ => (0, some ⟨"ParseInt", s, .bitSize⟩)
      | _ =>
        let cutoff := 2 ^ (bitSize - 1)
        if !neg ∧ un ≥ cutoff then (int64 (cutoff - 1 : Nat), some ⟨"ParseInt", s, .ErrRange⟩)
        else if neg ∧ un > cutoff then (int64 (- int64 (cutoff : Nat)), some ⟨"ParseInt", s, .ErrRange⟩)
        else
          let n := int64 (un : Nat)
          (if neg then int64 (- n) else n, none)

/-- Go conversion `uint32(x)` of an `int64`: the value modulo `2^32`. -/
def uint32 (x : Int) : Nat := (x % 2 ^ 32).toNat

/-! ## regexp -/

/-- The fragment of Go regular-expression syntax used by `update.go`. -/
inductive Regexp where
  /-- a literal byte string -/
  | lit (bs : Bytes)
  /-- the Perl class `\d`, which in Go is the ASCII digits `[0-9]` -/
  | digit
  /-- concatenation -/
  | cat (r s : Regexp)
  /-- greedy `r+` -/
  | plus (r : Regexp)
  /-- the capturing group `(r)` (the pattern has one group, number 1) -/
  | group (r : Regexp)

/-- A state of the backtracking matcher: the unread input and the text
captured by group 1 so far. -/
structure Thread where
  rest : Bytes
  cap : Option Bytes
  deriving DecidableEq

/-- ASCII digit test, the class `\d`. -/
def isDigit (b : Nat) : Bool := 48 ≤ b && b ≤ 57

/-- Remove the prefix `p` from the input, if the input starts with it. -/
def stripPrefix : Bytes → Bytes → Option Bytes
  | [], inp => some inp
  | _ :: _, [] => none
  | p :: ps, b :: bs => if p = b then stripPrefix ps bs else none

/-- Iterations of a greedy `+`: after one match of the body, further
iterations are preferred to stopping.  The counter bounds the number of
iterations; every iteration of a body that consumes input uses at least one
byte, so the input length is enough. -/
def plusLoop (step : Bytes → Option Bytes → List Thread) :
    Nat → Bytes → Option Bytes → List Thread
  | 0, _, _ => []
  | fuel + 1, inp, cap =>
    (step inp cap).flatMap fun t => plusLoop step fuel t.rest t.cap ++ [t]

/-- All ways the expression matches a prefix of the input, in the priority
order of Go's leftmost-first (Perl-like) semantics: the first thread is the
match that `regexp` reports for this start position. -/
def Regexp.run : Regexp → Bytes → Option Bytes → List Thread
  | .lit bs, inp, cap =>
    match stripPrefix bs inp with
    | some rest => [⟨rest, cap⟩]
    | none => []
  | .digit, inp, cap =>
    match inp with
    | b :: rest => if isDigit b then [⟨rest, cap⟩] else []
    | [] => []
  | .cat r s, inp, cap => (r.run inp cap).flatMap fun t => s.run t.rest t.cap
  | .plus r, inp, cap => plusLoop (fun i c => r.run i c) inp.length inp cap
  | .group r, inp, cap =>
    (r.run inp cap).map fun t => ⟨t.rest, some (inp.take (inp.length - t.rest.length))⟩

/-- The match of the expression that starts exactly at the head of the
input, as the slice pair `[whole match, group 1]`, or the empty list. -/
def Regexp.matchAt (re : Regexp) (inp : Bytes) : List Bytes :=
  match re.run inp none with
  | t :: _ => [inp.take (inp.length - t.rest.length), t.cap.getD []]
  | [] => []

/-- Go `(*Regexp).FindSubmatch(b)`: the leftmost match, found by trying the
start offsets 0, 1, 2, ... in turn; `nil` (the empty list) when there is none. -/
def Regexp.FindSubmatch (re : Regexp) : Bytes → List Bytes
  | [] => re.matchAt []
  | b :: bs =>
    match re.matchAt (b :: bs) with
    | [] => re.FindSubmatch bs
    | m => m

/-- The pattern of update.go line 20: `"client_revision":(\d+),`. -/
def clientVersionRegex : Regexp :=
  .cat (.lit (bytesOf "\"client_revision\":"))
    (.cat (.group (.plus .digit)) (.lit (bytesOf ",")))

/-! ## The collaborators of update.go -/

/-- Go `store.WAVersionContainer`, a `[3]uint32`. -/
structure WAVersionContainer where
  major : Nat
  minor : Nat
  build : Nat
  deriving DecidableEq

/-- Go `*http.Request` as far as update.go touches it; `H` is the type of
header sets. -/
structure Request (H : Type) where
  Method : String
  URL : String
  Header : Option H

/-- Go `*http.Response` as far as update.go reads it: the status code and
what `io.ReadAll(resp.Body)` returns, the data and an optional error.  `E` is
the type of error values of the collaborators. -/
structure Response (E : Type) where
  StatusCode : Int
  data : Bytes
  readErr : Option E

/-- Go `*http.Client`: `Do` returns a response or an error. -/
structure Client (E H : Type) where
  Do : Request H → Except E (Response E)

/-- What update.go takes from outside the file: `http.NewRequest` (with a nil
body), `http.DefaultClient`, `socket.Origin`, and the header set
`getDynamicHeaders(store.DeviceProps, store.BaseClientPayload.UserAgent)`. -/
structure Env (E H : Type) where
  NewRequest : String → String → Except E (Request H)
  DefaultClient : Client E H
  Origin : String
  dynamicHeaders : H

/-- The error values `GetLatestVersion` builds with `fmt.Errorf`, one
constructor per format string; `cause` is the operand of `%w`. -/
inductive Error (E : Type) where
  /-- "failed to prepare request: %w" -/
  | prepareRequest (cause : E)
  /-- "failed to send request: %w" -/
  | sendRequest (cause : E)
  /-- "failed to read response: %w" -/
  | readResponse (cause : E)
  /-- "unexpected response with status %d: %s" -/
  | unexpectedStatus (status : Int) (data : Bytes)
  /-- "version number not found" -/
  | versionNotFound
  /-- "failed to parse version number: %w" -/
  | parseVersion (cause : NumError)
  deriving DecidableEq

/-- An error that can be wrapped: one of a collaborator or a `NumError`. -/
inductive Cause (E : Type) where
  | collaborator (e : E)
  | strconv (e : NumError)
  deriving DecidableEq

/-- Go `errors.Unwrap`: the operand of `%w`, when the format has one. -/
def Error.Unwrap {E : Type} : Error E → Option (Cause E)
  | .prepareRequest e => some (.collaborator e)
  | .sendRequest e => some (.collaborator e)
  | .readResponse e => some (.collaborator e)
  | .unexpectedStatus _ _ => none
  | .versionNotFound => none
  | .parseVersion e => some (.strconv e)

/-- Go `err.Error()`: the text `fmt.Errorf` renders, given the texts of the
wrapped errors.  `%d` prints the decimal status, `%s` the raw bytes. -/
def Error.text {E : Type} (causeText : Cause E → Bytes) : Error E → Bytes
  | .prepareRequest e => bytesOf "failed to prepare request: " ++ causeText (.collaborator e)
  | .sendRequest e => bytesOf "failed to send request: " ++ causeText (.collaborator e)
  | .readResponse e => bytesOf "failed to read response: " ++ causeText (.collaborator e)
  | .unexpectedStatus status data =>
    bytesOf "unexpected response with status " ++ bytesOf (toString status) ++ bytesOf ": " ++ data
  | .versionNotFound => bytesOf "version number not found"
  | .parseVersion e => bytesOf "failed to parse version number: " ++ causeText (.strconv e)

/-- The effects of `GetLatestVersion` on its collaborators. -/
inductive Event where
  | newRequest
  | send
  | readBody
  | closeBody
  deriving DecidableEq

/-- The Go result pair `(*store.WAVersionContainer, error)` and the trace of
effects performed, in order. -/
structure Return (E : Type) where
  ver : Option WAVersionContainer
  err : Option (Error E)
  trace : List Event

/-! ## GetLatestVersion -/

/-- Lines 47-62 of update.go: what runs between `defer resp.Body.Close()` and
the return.  Gives the result pair and the effects performed. -/
def afterDefer {E : Type} (resp : Response E) :
    Option WAVersionContainer × Option (Error E) × List Event :=
  match resp.readErr with
  | some err => (none, some (.readResponse err), [.readBody])
  | none =>
    if resp.StatusCode ≠ 200 then
      (none, some (.unexpectedStatus resp.StatusCode resp.data), [.readBody])
    else
      let m := clientVersionRegex.FindSubmatch resp.data
      if m.length = 0 then (none, some .versionNotFound, [.readBody])
      else
        match ParseInt (m.getD 1 []) 10 64 with
        | (_, some err) => (none, some (.parseVersion err), [.readBody])
        | (parsedVer, none) => (some ⟨2, 3000, uint32 parsedVer⟩, none, [.readBody])

/-- Go `GetLatestVersion(httpClient)`; `none` is the nil client. -/
def GetLatestVersion {E H : Type} (env : Env E H) (httpClient : Option (Client E H)) :
    Return E :=
  let httpClient := httpClient.getD env.DefaultClient
  match env.NewRequest "GET" env.Origin with
  | .error err => ⟨none, some (.prepareRequest err), [.newRequest]⟩
  | .ok req =>
    let req : Request H := { req with Header := some env.dynamicHeaders }
    match httpClient.Do req with
    | .error err => ⟨none, some (.sendRequest err), [.newRequest, .send]⟩
    | .ok resp =>
      -- `defer resp.Body.Close()`: the close runs when the function returns
      match afterDefer resp with
      | (ver, err, effects) => ⟨ver, err, [.newRequest, .send] ++ effects ++ [.closeBody]⟩

/-! ## Specification-side notions -/

/-- Every byte is an ASCII digit. -/
def AllDigits (ds : Bytes) : Prop := ∀ c ∈ ds, isDigit c = true

/-- The number written in base 10 by the digits `ds` after the digits already
read, whose value is `n`. -/
def valueFrom (n : Nat) (ds : Bytes) : Nat := ds.foldl (fun acc c => acc * 10 + (c - 48)) n

/-- The number a digit sequence denotes in base 10. -/
def decimalValue (ds : Bytes) : Nat := valueFrom 0 ds

/-- The input does not start with a digit. -/
def NoLeadingDigit (r : Bytes) : Prop := ∀ b rest, r = b :: rest → isDigit b = false

/-- The literal prefix of the pattern followed by the digits `ds` and a comma:
the text of one match that captures `ds`. -/
def markerText (ds : Bytes) : Bytes := bytesOf "\"client_revision\":" ++ ds ++ bytesOf ","

/-- A match of the pattern starts at the head of the input and captures `ds`. -/
def MatchesHere (inp ds : Bytes) : Prop :=
  ∃ post, inp = markerText ds ++ post ∧ ds ≠ [] ∧ AllDigits ds

/-- A match of the pattern starts at offset `i` of the body and captures `ds`:
the body is some `i` bytes, the literal prefix, the digits `ds` (one or more
ASCII digits), a comma, and anything. -/
def OccursAt (body : Bytes) (i : Nat) (ds : Bytes) : Prop :=
  ∃ pre post, body = pre ++ markerText ds ++ post ∧ pre.length = i ∧ ds ≠ [] ∧ AllDigits ds

/-- The body contains a substring matching the pattern. -/
def ContainsMatch (body : Bytes) : Prop := ∃ i ds, OccursAt body i ds

/-- The leftmost match of the pattern in the body captures `ds`: a match
starts at some offset and no match starts at a smaller offset. -/
def FirstMatch (body ds : Bytes) : Prop :=
  ∃ i, OccursAt body i ds ∧ ∀ j ds', OccursAt body j ds' → i ≤ j

/-- The request was built and the transport answered it with the response
`resp`: `http.NewRequest` succeeded and `Do`, of the given client or of the
default client when the given one is nil, returned `resp` for the request
carrying the dynamic headers. -/
def Responds {E H : Type} (env : Env E H) (httpClient : Option (Client E H))
    (resp : Response E) : Prop :=
  ∃ req, env.NewRequest "GET" env.Origin = .ok req ∧
    (httpClient.getD env.DefaultClient).Do { req with Header := some env.dynamicHeaders }
      = .ok resp

/-! ## Concrete inputs -/

/-- An environment in which building the request succeeds and the default
client gives the outcome `out` for every request. -/
def envWith (out : Except String (Response String)) : Env String Unit where
  NewRequest := fun method url => .ok ⟨method, url, none⟩
  DefaultClient := ⟨fun _ => out⟩
  Origin := "https://web.whatsapp.com"
  dynamicHeaders := ()

/-- A response with the given status whose body is read without error. -/
def respOk (status : Int) (body : String) : Response String := ⟨status, bytesOf body, none⟩

/-! ## strconv on digit sequences -/

theorem valueFrom_cons (n c : Nat) (cs : Bytes) :
    valueFrom n (c :: cs) = valueFrom (n * 10 + (c - 48)) cs := rfl

theorem le_valueFrom (ds : Bytes) : ∀ n, n ≤ valueFrom n ds := by
  induction ds with
  | nil => intro n; exact Nat.le_refl n
  | cons c cs ih =>
    intro n
    rw [valueFrom_cons]
    have := ih (n * 10 + (c - 48))
    omega

theorem allDigits_cons {c : Nat} {cs : Bytes} (h : AllDigits (c :: cs)) :
    (48 ≤ c ∧ c ≤ 57) ∧ AllDigits cs := by
  constructor
  · have := h c (List.mem_cons_self c cs)
    simpa [isDigit] using this
  · intro x hx
    exact h x (List.mem_cons_of_mem c hx)

theorem parseUintLoop_digits (ds : Bytes) (hd : AllDigits ds) :
    ∀ n, n < 2 ^ 64 →
      parseUintLoop 10 ((2 ^ 64 - 1) / 10 + 1) (2 ^ 64 - 1) n ds =
        if valueFrom n ds < 2 ^ 64 then (valueFrom n ds, none)
        else (2 ^ 64 - 1, some .ErrRange) := by
  induction ds with
  | nil =>
    intro n hn
    show (n, none) = if n < 2 ^ 64 then (n, none) else (2 ^ 64 - 1, some NumErrKind.ErrRange)
    rw [if_pos hn]
  | cons c cs ih =>
    intro n hn
    obtain ⟨hc, hcs⟩ := allDigits_cons hd
    have hmono := le_valueFrom cs (n * 10 + (c - 48))
    rw [valueFrom_cons]
    unfold parseUintLoop
    simp only [hc, and_self, if_true]
    have hb : ¬ (c - 48 ≥ 10 % 256) := by omega
    simp only [hb, if_false]
    by_cases hcut : n ≥ (2 ^ 64 - 1) / 10 + 1
    · have : ¬ valueFrom (n * 10 + (c - 48)) cs < 2 ^ 64 := by omega
      simp only [hcut, if_true, this, if_false]
    · simp only [hcut, if_false]
      have hn10 : n * 10 < 2 ^ 64 := by omega
      rw [Nat.mod_eq_of_lt hn10]
      by_cases hov : n * 10 + (c - 48) < 2 ^ 64
      · rw [Nat.mod_eq_of_lt hov]
        have h1 : ¬ (n * 10 + (c - 48) < n * 10 ∨ n * 10 + (c - 48) > 2 ^ 64 - 1) := by omega
        simp only [h1, if_false]
        exact ih hcs _ hov
      · have h2 : (n * 10 + (c - 48)) % 2 ^ 64 = n * 10 + (c - 48) - 2 ^ 64 := by
          omega
        rw [h2]
        have h1 : (n * 10 + (c - 48) - 2 ^ 64 < n * 10 ∨ n * 10 + (c - 48) - 2 ^ 64 > 2 ^ 64 - 1) := by
          omega
        have : ¬ valueFrom (n * 10 + (c - 48)) cs < 2 ^ 64 := by omega
        simp only [h1, if_true, this, if_false]

theorem ParseUint_digits (ds : Bytes) (hne : ds ≠ []) (hd : AllDigits ds) :
    ParseUint ds 10 64 =
      if decimalValue ds < 2 ^ 64 then (decimalValue ds, none)
      else (2 ^ 64 - 1, some ⟨"ParseUint", ds, .ErrRange⟩) := by
  unfold ParseUint
  simp only [hne, if_false]
  have h1 : ¬ ¬ (2 ≤ 10 ∧ 10 ≤ 36) := by decide
  have h2 : ¬ ((64 : Nat) = 0 ∨ 64 > 64) := by decide
  simp only [h1, h2, if_false]
  rw [parseUintLoop_digits ds hd 0 (by decide)]
  unfold decimalValue
  by_cases h : valueFrom 0 ds < 2 ^ 64
  · simp only [h, if_true]
  · simp only [h, if_false]

theorem int64_of_lt {n : Nat} (h : n < 2 ^ 63) : int64 (n : Int) = n := by
  unfold int64
  have h0 : (0 : Int) ≤ n := Int.ofNat_nonneg n
  have h1 : (n : Int) < 2 ^ 63 := by exact_mod_cast h
  have : (n : Int) % 2 ^ 64 = n := Int.emod_eq_of_lt h0 (by omega)
  simp only [this]
  have : ¬ ((n : Int) ≥ 2 ^ 63) := by omega
  simp only [this, if_false]

/-- `ParseInt` on a non-empty digit sequence: the value when it fits a signed
64-bit integer, otherwise a range error. -/
theorem ParseInt_digits (ds : Bytes) (hne : ds ≠ []) (hd : AllDigits ds) :
    ParseInt ds 10 64 =
      if decimalValue ds < 2 ^ 63 then ((decimalValue ds : Int), none)
      else (2 ^ 63 - 1, some ⟨"ParseInt", ds, .ErrRange⟩) := by
  cases ds with
  | nil => exact absurd rfl hne
  | cons c cs =>
    obtain ⟨hc, _⟩ := allDigits_cons hd
    unfold ParseInt
    have h43 : ¬ (c = 43 ∨ c = 45) := by omega
    have h45 : ¬ (c = 45) := by omega
    simp only [if_neg h43]
    simp only [h45, decide_False]
    rw [ParseUint_digits (c :: cs) hne hd]
    have hmax : int64 9223372036854775807 = 9223372036854775807 := by decide
    by_cases h63 : decimalValue (c :: cs) < 2 ^ 63
    · have h64 : decimalValue (c :: cs) < 2 ^ 64 := by omega
      have h63a : decimalValue (c :: cs) < 9223372036854775808 := h63
      have h63b : ¬ 9223372036854775808 ≤ decimalValue (c :: cs) := by omega
      rw [if_pos h64, if_pos h63]
      simp [h63a, h63b, int64_of_lt h63]
    · have h63b : 9223372036854775808 ≤ decimalValue (c :: cs) := by omega
      rw [if_neg h63]
      by_cases h64 : decimalValue (c :: cs) < 2 ^ 64
      · rw [if_pos h64]
        simp [h63b, hmax]
      · rw [if_neg h64]
        simp [hmax]

/-! ## The pattern on a fixed start position -/

theorem stripPrefix_eq_some (p : Bytes) : ∀ inp rest : Bytes,
    stripPrefix p inp = some rest ↔ inp = p ++ rest := by
  induction p with
  | nil => intro inp rest; simp [stripPrefix, eq_comm]
  | cons a p ih =>
    intro inp rest
    cases inp with
    | nil => simp [stripPrefix]
    | cons b bs =>
      by_cases hab : a = b
      · subst hab; simp [stripPrefix, ih]
      · have hba : ¬ b = a := fun h => hab h.symm
        simp [stripPrefix, hab, hba]

theorem stripPrefix_append (p rest : Bytes) : stripPrefix p (p ++ rest) = some rest :=
  (stripPrefix_eq_some p _ _).2 rfl

/-- The greedy digit loop followed by any continuation that fails in front
of a digit: only the longest run of digits survives. -/
theorem plusLoop_digit_flatMap (r : Bytes) (hr : NoLeadingDigit r) (cap : Option Bytes)
    (h : Thread → List Thread)
    (hh : ∀ b s, isDigit b = true → h ⟨b :: s, cap⟩ = []) :
    ∀ (ds : Bytes) (fuel : Nat), AllDigits ds → ds.length ≤ fuel →
      (plusLoop (fun i c => Regexp.digit.run i c) fuel (ds ++ r) cap).flatMap h =
        if ds = [] then [] else h ⟨r, cap⟩ := by
  intro ds
  induction ds with
  | nil =>
    intro fuel _ _
    cases fuel with
    | zero => simp [plusLoop]
    | succ f =>
      cases r with
      | nil => simp [plusLoop, Regexp.run]
      | cons b rest =>
        have hb : isDigit b = false := hr b rest rfl
        simp [plusLoop, Regexp.run, hb]
  | cons d ds ih =>
    intro fuel hd hlen
    obtain ⟨hdig, hds⟩ := allDigits_cons hd
    have hdd : isDigit d = true := hd d (List.mem_cons_self d ds)
    cases fuel with
    | zero => simp at hlen
    | succ f =>
      have hlen' : ds.length ≤ f := by simpa using hlen
      have step : plusLoop (fun i c => Regexp.digit.run i c) (f + 1) (d :: ds ++ r) cap =
          plusLoop (fun i c => Regexp.digit.run i c) f (ds ++ r) cap ++ [⟨ds ++ r, cap⟩] := by
        simp [plusLoop, Regexp.run, hdd]
      rw [step, List.flatMap_append, ih f hds hlen', List.flatMap_singleton]
      cases ds with
      | nil => simp
      | cons e es =>
        have he : isDigit e = true := hds e (List.mem_cons_self e es)
        simp [hh e (es ++ r) he]

theorem bytesOf_comma : bytesOf "," = [44] := by decide

/-- The part of the pattern after the literal prefix, `(\d+),`, on an input
split into a run of digits and a remainder that does not start with a digit. -/
theorem run_digits_comma (ds r : Bytes) (cap : Option Bytes) (hd : AllDigits ds)
    (hr : NoLeadingDigit r) :
    (Regexp.cat (.group (.plus .digit)) (.lit [44])).run (ds ++ r) cap =
      if ds = [] then []
      else match stripPrefix [44] r with
        | some post => [⟨post, some ds⟩]
        | none => [] := by
  let h : Thread → List Thread := fun t =>
    (Regexp.lit [44]).run t.rest (some ((ds ++ r).take ((ds ++ r).length - t.rest.length)))
  have hh : ∀ b s, isDigit b = true → h ⟨b :: s, cap⟩ = [] := by
    intro b s hb
    have hne : ¬ 44 = b := by
      intro h
      subst h
      exact absurd hb (by decide)
    simp [h, Regexp.run, stripPrefix, hne]
  have key := plusLoop_digit_flatMap r hr cap h hh ds (ds ++ r).length hd (by simp)
  have hrun : (Regexp.cat (.group (.plus .digit)) (.lit [44])).run (ds ++ r) cap =
      (plusLoop (fun i c => Regexp.digit.run i c) (ds ++ r).length (ds ++ r) cap).flatMap h := by
    rw [Regexp.run, Regexp.run, Regexp.run, List.flatMap_map]
  rw [hrun, key]
  by_cases hds : ds = []
  · simp [hds]
  · simp only [hds, if_false]
    have ht : (ds ++ r).take ((ds ++ r).length - r.length) = ds := by
      have : (ds ++ r).length - r.length = ds.length := by simp
      rw [this, List.take_left]
    show h ⟨r, cap⟩ = _
    simp only [h, ht, Regexp.run]

theorem noLeadingDigit_comma (post : Bytes) : NoLeadingDigit (44 :: post) := by
  intro b rest h
  have : b = 44 := by
    have := (List.cons.inj h).1
    exact this.symm
  subst this
  decide

theorem noLeadingDigit_dropWhile (l : Bytes) : NoLeadingDigit (l.dropWhile isDigit) := by
  intro b rest h
  have := List.head?_dropWhile_not isDigit l
  rw [h] at this
  simpa using this

theorem allDigits_takeWhile (l : Bytes) : AllDigits (l.takeWhile isDigit) := by
  intro c hc
  exact List.mem_takeWhile_imp hc

/-- The threads of the whole pattern on an input that starts with a match. -/
theorem run_of_matchesHere (ds post : Bytes) (hne : ds ≠ []) (hd : AllDigits ds) :
    clientVersionRegex.run (markerText ds ++ post) none = [⟨post, some ds⟩] := by
  have h := run_digits_comma ds (44 :: post) none hd (noLeadingDigit_comma post)
  unfold clientVersionRegex markerText
  rw [bytesOf_comma]
  rw [Regexp.run]
  have hs : (Regexp.lit (bytesOf "\"client_revision\":")).run
      (bytesOf "\"client_revision\":" ++ ds ++ [44] ++ post) none = [⟨ds ++ 44 :: post, none⟩] := by
    have : bytesOf "\"client_revision\":" ++ ds ++ [44] ++ post
        = bytesOf "\"client_revision\":" ++ (ds ++ 44 :: post) := by simp
    rw [this]
    simp only [Regexp.run, stripPrefix_append]
  rw [hs, List.flatMap_singleton]
  show (Regexp.cat (.group (.plus .digit)) (.lit [44])).run (ds ++ 44 :: post) none = _
  rw [h]
  simp [hne, stripPrefix]

/-- Whenever the pattern has a thread on an input, the input starts with a
match in the declarative sense. -/
theorem matchesHere_of_run (inp : Bytes) (h : clientVersionRegex.run inp none ≠ []) :
    ∃ ds, MatchesHere inp ds := by
  unfold clientVersionRegex at h
  rw [bytesOf_comma, Regexp.run] at h
  cases hs : stripPrefix (bytesOf "\"client_revision\":") inp with
  | none => simp [Regexp.run, hs] at h
  | some inp' =>
    have hinp := (stripPrefix_eq_some _ _ _).1 hs
    have hrun : (Regexp.lit (bytesOf "\"client_revision\":")).run inp none = [⟨inp', none⟩] := by
      simp only [Regexp.run, hs]
    rw [hrun, List.flatMap_singleton] at h
    have hsplit : inp' = inp'.takeWhile isDigit ++ inp'.dropWhile isDigit :=
      (List.takeWhile_append_dropWhile isDigit inp').symm
    have key := run_digits_comma (inp'.takeWhile isDigit) (inp'.dropWhile isDigit) none
      (allDigits_takeWhile inp') (noLeadingDigit_dropWhile inp')
    rw [← hsplit] at key
    have h' : (Regexp.cat (.group (.plus .digit)) (.lit [44])).run inp' none ≠ [] := h
    rw [key] at h'
    by_cases hds : inp'.takeWhile isDigit = []
    · simp [hds] at h'
    · simp only [hds, if_false] at h'
      cases hc : stripPrefix [44] (inp'.dropWhile isDigit) with
      | none => simp [hc] at h'
      | some post =>
        have hr := (stripPrefix_eq_some _ _ _).1 hc
        refine ⟨inp'.takeWhile isDigit, post, ?_, hds, allDigits_takeWhile inp'⟩
        unfold markerText
        rw [bytesOf_comma, hinp]
        conv_lhs => rw [hsplit, hr]
        simp

/-! ## The leftmost match -/

theorem matchAt_of_matchesHere {inp ds : Bytes} (h : MatchesHere inp ds) :
    clientVersionRegex.matchAt inp = [markerText ds, ds] := by
  obtain ⟨post, rfl, hne, hd⟩ := h
  unfold Regexp.matchAt
  rw [run_of_matchesHere ds post hne hd]
  have : (markerText ds ++ post).length - post.length = (markerText ds).length := by simp
  simp only [this, List.take_left, Option.getD_some]

theorem matchAt_eq_nil {inp : Bytes} (h : ¬ ∃ ds, MatchesHere inp ds) :
    clientVersionRegex.matchAt inp = [] := by
  unfold Regexp.matchAt
  cases hr : clientVersionRegex.run inp none with
  | nil => rfl
  | cons t ts =>
    exact absurd (matchesHere_of_run inp (by rw [hr]; exact List.cons_ne_nil t ts)) h

theorem occursAt_zero {body ds : Bytes} : OccursAt body 0 ds ↔ MatchesHere body ds := by
  constructor
  · rintro ⟨pre, post, hb, hlen, hne, hd⟩
    have : pre = [] := List.length_eq_zero.1 hlen
    subst this
    exact ⟨post, by simpa using hb, hne, hd⟩
  · rintro ⟨post, hb, hne, hd⟩
    exact ⟨[], post, by simpa using hb, rfl, hne, hd⟩

theorem occursAt_succ {b : Nat} {bs ds : Bytes} {i : Nat} :
    OccursAt (b :: bs) (i + 1) ds ↔ OccursAt bs i ds := by
  constructor
  · rintro ⟨pre, post, hb, hlen, hne, hd⟩
    cases pre with
    | nil => simp at hlen
    | cons p ps =>
      have h1 : b :: bs = p :: (ps ++ markerText ds ++ post) := by simpa using hb
      exact ⟨ps, post, (List.cons.inj h1).2, by simpa using hlen, hne, hd⟩
  · rintro ⟨pre, post, hb, hlen, hne, hd⟩
    exact ⟨b :: pre, post, by simp [hb], by simp [hlen], hne, hd⟩

theorem not_occursAt_nil_succ {i : Nat} {ds : Bytes} : ¬ OccursAt [] (i + 1) ds := by
  rintro ⟨pre, post, hb, hlen, _, _⟩
  cases pre with
  | nil => simp at hlen
  | cons p ps => simp at hb

/-- `FindSubmatch` reports the leftmost match: its text and the digits it
captures. -/
theorem FindSubmatch_of_occursAt : ∀ (body : Bytes) (i : Nat) (ds : Bytes),
    OccursAt body i ds → (∀ j ds', OccursAt body j ds' → i ≤ j) →
    clientVersionRegex.FindSubmatch body = [markerText ds, ds] := by
  intro body
  induction body with
  | nil =>
    intro i ds hocc _
    cases i with
    | zero =>
      rw [Regexp.FindSubmatch]
      exact matchAt_of_matchesHere (occursAt_zero.1 hocc)
    | succ k => exact absurd hocc not_occursAt_nil_succ
  | cons b bs ih =>
    intro i ds hocc hmin
    cases i with
    | zero =>
      rw [Regexp.FindSubmatch, matchAt_of_matchesHere (occursAt_zero.1 hocc)]
    | succ k =>
      have hno : ¬ ∃ ds', MatchesHere (b :: bs) ds' := by
        rintro ⟨ds', h'⟩
        have := hmin 0 ds' (occursAt_zero.2 h')
        omega
      rw [Regexp.FindSubmatch, matchAt_eq_nil hno]
      refine ih k ds (occursAt_succ.1 hocc) ?_
      intro j ds' hj
      have := hmin (j + 1) ds' (occursAt_succ.2 hj)
      omega

theorem FindSubmatch_of_firstMatch {body ds : Bytes} (h : FirstMatch body ds) :
    clientVersionRegex.FindSubmatch body = [markerText ds, ds] := by
  obtain ⟨i, hocc, hmin⟩ := h
  exact FindSubmatch_of_occursAt body i ds hocc hmin

theorem FindSubmatch_of_no_match : ∀ (body : Bytes), ¬ ContainsMatch body →
    clientVersionRegex.FindSubmatch body = [] := by
  intro body
  induction body with
  | nil =>
    intro h
    rw [Regexp.FindSubmatch]
    exact matchAt_eq_nil (fun ⟨ds, hd⟩ => h ⟨0, ds, occursAt_zero.2 hd⟩)
  | cons b bs ih =>
    intro h
    have hno : ¬ ∃ ds', MatchesHere (b :: bs) ds' :=
      fun ⟨ds, hd⟩ => h ⟨0, ds, occursAt_zero.2 hd⟩
    rw [Regexp.FindSubmatch, matchAt_eq_nil hno]
    exact ih (fun ⟨i, ds, hd⟩ => h ⟨i + 1, ds, occursAt_succ.2 hd⟩)

/-- A body that contains a match has a leftmost one. -/
theorem exists_firstMatch {body : Bytes} (h : ContainsMatch body) :
    ∃ ds, FirstMatch body ds := by
  classical
  have hex : ∃ i, ∃ ds, OccursAt body i ds := h
  obtain ⟨ds, hds⟩ := Nat.find_spec hex
  refine ⟨ds, Nat.find hex, hds, ?_⟩
  intro j ds' hj
  exact Nat.find_min' hex ⟨ds', hj⟩

theorem FindSubmatch_eq_nil_iff (body : Bytes) :
    clientVersionRegex.FindSubmatch body = [] ↔ ¬ ContainsMatch body := by
  constructor
  · intro h hc
    obtain ⟨ds, hf⟩ := exists_firstMatch hc
    rw [FindSubmatch_of_firstMatch hf] at h
    exact absurd h (List.cons_ne_nil _ _)
  · exact FindSubmatch_of_no_match body

/-- The leftmost match captures one digit sequence only. -/
theorem firstMatch_unique {body ds ds' : Bytes} (h : FirstMatch body ds)
    (h' : FirstMatch body ds') : ds = ds' := by
  have e := FindSubmatch_of_firstMatch h
  rw [FindSubmatch_of_firstMatch h'] at e
  have := (List.cons.inj e).2
  exact ((List.cons.inj this).1).symm

/-! ## GetLatestVersion step by step -/

theorem GetLatestVersion_of_response {E H : Type} {env : Env E H}
    {httpClient : Option (Client E H)} {resp : Response E}
    (h : Responds env httpClient resp) :
    GetLatestVersion env httpClient =
      ⟨(afterDefer resp).1, (afterDefer resp).2.1,
        [.newRequest, .send] ++ (afterDefer resp).2.2 ++ [.closeBody]⟩ := by
  obtain ⟨req, h1, h2⟩ := h
  simp only [GetLatestVersion, h1, h2]

theorem afterDefer_readErr {E : Type} {resp : Response E} {e : E}
    (h : resp.readErr = some e) :
    afterDefer resp = (none, some (.readResponse e), [.readBody]) := by
  simp only [afterDefer, h]

theorem afterDefer_status {E : Type} {resp : Response E} (h : resp.readErr = none)
    (hs : resp.StatusCode ≠ 200) :
    afterDefer resp =
      (none, some (.unexpectedStatus resp.StatusCode resp.data), [.readBody]) := by
  simp only [afterDefer, h, hs, ne_eq, not_false_eq_true, if_true]

theorem afterDefer_no_match {E : Type} {resp : Response E} (h : resp.readErr = none)
    (hs : resp.StatusCode = 200) (hn : ¬ ContainsMatch resp.data) :
    afterDefer resp = (none, some .versionNotFound, [.readBody]) := by
  have hf := FindSubmatch_of_no_match resp.data hn
  simp [afterDefer, h, hs, hf]

theorem afterDefer_parse {E : Type} {resp : Response E} {ds : Bytes}
    (h : resp.readErr = none) (hs : resp.StatusCode = 200) (hf : FirstMatch resp.data ds) :
    afterDefer resp =
      match ParseInt ds 10 64 with
      | (_, some err) => (none, some (.parseVersion err), [.readBody])
      | (parsedVer, none) => (some ⟨2, 3000, uint32 parsedVer⟩, none, [.readBody]) := by
  have hm := FindSubmatch_of_firstMatch hf
  simp [afterDefer, h, hs, hm]

theorem firstMatch_digits {body ds : Bytes} (h : FirstMatch body ds) :
    ds ≠ [] ∧ AllDigits ds := by
  obtain ⟨_, ⟨_, _, _, _, hne, hd⟩, _⟩ := h
  exact ⟨hne, hd⟩

theorem uint32_natCast (n : Nat) : uint32 (n : Int) = n % 2 ^ 32 := by
  unfold uint32
  have : ((n : Int) % 2 ^ 32) = ((n % 2 ^ 32 : Nat) : Int) := by
    push_cast
    rfl
  rw [this, Int.toNat_ofNat]

theorem afterDefer_firstMatch {E : Type} {resp : Response E} {ds : Bytes}
    (h : resp.readErr = none) (hs : resp.StatusCode = 200) (hf : FirstMatch resp.data ds) :
    afterDefer resp =
      if decimalValue ds < 2 ^ 63 then
        (some ⟨2, 3000, decimalValue ds % 2 ^ 32⟩, none, [.readBody])
      else (none, some (.parseVersion ⟨"ParseInt", ds, .ErrRange⟩), [.readBody]) := by
  obtain ⟨hne, hd⟩ := firstMatch_digits hf
  rw [afterDefer_parse h hs hf, ParseInt_digits ds hne hd]
  by_cases hv : decimalValue ds < 2 ^ 63
  · rw [if_pos hv, if_pos hv]
    simp only [uint32_natCast]
  · rw [if_neg hv, if_neg hv]

theorem afterDefer_effects {E : Type} (resp : Response E) :
    (afterDefer resp).2.2 = [.readBody] := by
  unfold afterDefer
  split
  · rfl
  · split
    · rfl
    · simp only []
      split
      · rfl
      · split <;> rfl

/-- The five ways the code after the `defer` can end, told apart by the
response alone. -/
theorem afterDefer_cases {E : Type} (resp : Response E) :
    (∃ e, resp.readErr = some e ∧
      afterDefer resp = (none, some (.readResponse e), [.readBody])) ∨
    (resp.readErr = none ∧ resp.StatusCode ≠ 200 ∧
      afterDefer resp =
        (none, some (.unexpectedStatus resp.StatusCode resp.data), [.readBody])) ∨
    (resp.readErr = none ∧ resp.StatusCode = 200 ∧ ¬ ContainsMatch resp.data ∧
      afterDefer resp = (none, some .versionNotFound, [.readBody])) ∨
    (∃ ds, resp.readErr = none ∧ resp.StatusCode = 200 ∧ FirstMatch resp.data ds ∧
      ¬ decimalValue ds < 2 ^ 63 ∧
      afterDefer resp =
        (none, some (.parseVersion ⟨"ParseInt", ds, .ErrRange⟩), [.readBody])) ∨
    (∃ ds, resp.readErr = none ∧ resp.StatusCode = 200 ∧ FirstMatch resp.data ds ∧
      decimalValue ds < 2 ^ 63 ∧
      afterDefer resp =
        (some ⟨2, 3000, decimalValue ds % 2 ^ 32⟩, none, [.readBody])) := by
  cases hr : resp.readErr with
  | some e => exact Or.inl ⟨e, rfl, afterDefer_readErr hr⟩
  | none =>
    by_cases hs : resp.StatusCode = 200
    · by_cases hc : ContainsMatch resp.data
      · obtain ⟨ds, hf⟩ := exists_firstMatch hc
        have h := afterDefer_firstMatch hr hs hf
        by_cases hv : decimalValue ds < 2 ^ 63
        · rw [if_pos hv] at h
          exact Or.inr (Or.inr (Or.inr (Or.inr ⟨ds, rfl, hs, hf, hv, h⟩)))
        · rw [if_neg hv] at h
          exact Or.inr (Or.inr (Or.inr (Or.inl ⟨ds, rfl, hs, hf, hv, h⟩)))
      · exact Or.inr (Or.inr (Or.inl ⟨rfl, hs, hc, afterDefer_no_match hr hs hc⟩))
    · exact Or.inr (Or.inl ⟨rfl, hs, afterDefer_status hr hs⟩)

/-- The three ways the call can go before the `defer`. -/
theorem GetLatestVersion_cases {E H : Type} (env : Env E H)
    (httpClient : Option (Client E H)) :
    (∃ e, env.NewRequest "GET" env.Origin = .error e ∧
      GetLatestVersion env httpClient = ⟨none, some (.prepareRequest e), [.newRequest]⟩) ∨
    (∃ req e, env.NewRequest "GET" env.Origin = .ok req ∧
      (httpClient.getD env.DefaultClient).Do { req with Header := some env.dynamicHeaders }
        = .error e ∧
      GetLatestVersion env httpClient =
        ⟨none, some (.sendRequest e), [.newRequest, .send]⟩) ∨
    (∃ resp, Responds env httpClient resp ∧
      GetLatestVersion env httpClient =
        ⟨(afterDefer resp).1, (afterDefer resp).2.1,
          [.newRequest, .send] ++ (afterDefer resp).2.2 ++ [.closeBody]⟩) := by
  cases h1 : env.NewRequest "GET" env.Origin with
  | error e =>
    refine Or.inl ⟨e, rfl, ?_⟩
    simp only [GetLatestVersion, h1]
  | ok req =>
    cases h2 : (httpClient.getD env.DefaultClient).Do
        { req with Header := some env.dynamicHeaders } with
    | error e =>
      refine Or.inr (Or.inl ⟨req, e, rfl, h2, ?_⟩)
      simp only [GetLatestVersion, h1, h2]
    | ok resp =>
      have hresp : Responds env httpClient resp := ⟨req, h1, h2⟩
      exact Or.inr (Or.inr ⟨resp, hresp, GetLatestVersion_of_response hresp⟩)

/-- The transport answers a call in one way only. -/
theorem responds_unique {E H : Type} {env : Env E H} {httpClient : Option (Client E H)}
    {resp resp' : Response E} (h : Responds env httpClient resp)
    (h' : Responds env httpClient resp') : resp = resp' := by
  obtain ⟨req, h1, h2⟩ := h
  obtain ⟨req', h1', h2'⟩ := h'
  rw [h1] at h1'
  have hreq : req = req' := by injection h1'
  subst hreq
  rw [h2] at h2'
  injection h2'

/-! ## Helpers for concrete inputs -/

theorem responds_envWith (r : Response String) : Responds (envWith (.ok r)) none r :=
  ⟨⟨"GET", "https://web.whatsapp.com", none⟩, rfl, rfl⟩

theorem allDigits_of_all {ds : Bytes} (h : ds.all isDigit = true) : AllDigits ds := by
  intro c hc
  exact List.all_eq_true.1 h c hc

/-- A body that starts with a match has this match as its leftmost one. -/
theorem firstMatch_head {body : Bytes} (ds post : Bytes) (hb : body = markerText ds ++ post)
    (hd : ds.all isDigit = true) (hne : ds ≠ []) : FirstMatch body ds :=
  ⟨0, ⟨[], post, by simpa using hb, rfl, hne, allDigits_of_all hd⟩, fun j _ _ => Nat.zero_le j⟩

/-! ## The claims -/

/-- C1 at the status-200 body `"client_revision":4294967296,`: the pattern
matches, the captured digits parse to 4294967296, and the call succeeds with
build 0, not 4294967296. -/
theorem C1_failing_input_build_is_zero :
    Responds (envWith (.ok (respOk 200 "\"client_revision\":4294967296,"))) none
      (respOk 200 "\"client_revision\":4294967296,") ∧
    FirstMatch (respOk 200 "\"client_revision\":4294967296,").data (bytesOf "4294967296") ∧
    ParseInt (bytesOf "4294967296") 10 64 = (4294967296, none) ∧
    (GetLatestVersion (envWith (.ok (respOk 200 "\"client_revision\":4294967296,"))) none).ver
      = some ⟨2, 3000, 0⟩ ∧
    (GetLatestVersion (envWith (.ok (respOk 200 "\"client_revision\":4294967296,"))) none).err
      = none ∧
    (GetLatestVersion (envWith (.ok (respOk 200 "\"client_revision\":4294967296,"))) none).ver
      ≠ some ⟨2, 3000, 4294967296⟩ := by
  refine ⟨responds_envWith _, firstMatch_head _ [] (by decide) (by decide) (by decide),
    by decide, by decide, by decide, by decide⟩

/-- C2: when the transport answers, the body is read and the status code is
not 200, GetLatestVersion returns no version and the unexpected-status error
carrying the status code and the body as read, whatever the body contains; the
text of the error contains the decimal status code and the raw body. -/
theorem C2_non_200_gives_status_error {E H : Type} (env : Env E H)
    (httpClient : Option (Client E H)) (resp : Response E)
    (hresp : Responds env httpClient resp) (hread : resp.readErr = none)
    (hstatus : resp.StatusCode ≠ 200) :
    (GetLatestVersion env httpClient).ver = none ∧
    (GetLatestVersion env httpClient).err
      = some (.unexpectedStatus resp.StatusCode resp.data) ∧
    ∀ causeText : Cause E → Bytes,
      bytesOf (toString resp.StatusCode) <:+:
        (Error.unexpectedStatus resp.StatusCode resp.data).text causeText ∧
      resp.data <:+: (Error.unexpectedStatus resp.StatusCode resp.data).text causeText := by
  rw [GetLatestVersion_of_response hresp, afterDefer_status hread hstatus]
  refine ⟨rfl, rfl, ?_⟩
  intro causeText
  constructor
  · exact ⟨bytesOf "unexpected response with status ", bytesOf ": " ++ resp.data, by
      simp [Error.text]⟩
  · exact ⟨bytesOf "unexpected response with status " ++ bytesOf (toString resp.StatusCode)
      ++ bytesOf ": ", [], by simp [Error.text]⟩

/-- C2 at status 404 with a body that holds a valid marker. -/
theorem C2_witness_404_with_marker :
    (GetLatestVersion (envWith (.ok (respOk 404 "\"client_revision\":123456,"))) none).err
      = some (.unexpectedStatus 404 (bytesOf "\"client_revision\":123456,")) :=
  (C2_non_200_gives_status_error (envWith (.ok (respOk 404 "\"client_revision\":123456,")))
    none (respOk 404 "\"client_revision\":123456,") (responds_envWith _) rfl (by decide)).2.1

/-- C3: when the transport answers with status 200, the body is read and it
contains no match of the pattern, GetLatestVersion returns no version and the
version-not-found error; and whenever the call returns the version-not-found
error, the transport answered with status 200 and a body, read without error,
that contains no match. -/
theorem C3_not_found_iff_200_and_no_match {E H : Type} (env : Env E H)
    (httpClient : Option (Client E H)) :
    (∀ resp, Responds env httpClient resp → resp.readErr = none → resp.StatusCode = 200 →
      ¬ ContainsMatch resp.data →
      (GetLatestVersion env httpClient).ver = none ∧
      (GetLatestVersion env httpClient).err = some .versionNotFound) ∧
    ((GetLatestVersion env httpClient).err = some .versionNotFound →
      ∃ resp, Responds env httpClient resp ∧ resp.readErr = none ∧ resp.StatusCode = 200 ∧
        ¬ ContainsMatch resp.data) := by
  constructor
  · intro resp hresp hread hstatus hno
    rw [GetLatestVersion_of_response hresp, afterDefer_no_match hread hstatus hno]
    exact ⟨rfl, rfl⟩
  · intro herr
    rcases GetLatestVersion_cases env httpClient with ⟨e, _, h⟩ | ⟨req, e, _, _, h⟩ |
      ⟨resp, hresp, h⟩
    · rw [h] at herr; simp at herr
    · rw [h] at herr; simp at herr
    · rw [h] at herr
      rcases afterDefer_cases resp with ⟨e, _, ha⟩ | ⟨_, _, ha⟩ | ⟨hr, hs, hn, _⟩ |
        ⟨ds, _, _, _, _, ha⟩ | ⟨ds, _, _, _, _, ha⟩
      · rw [ha] at herr; simp at herr
      · rw [ha] at herr; simp at herr
      · exact ⟨resp, hresp, hr, hs, hn⟩
      · rw [ha] at herr; simp at herr
      · rw [ha] at herr; simp at herr

/-- C3 at a status-200 body without the marker (the digits are missing). -/
theorem C3_witness_no_marker :
    (GetLatestVersion (envWith (.ok (respOk 200 "<html>\"client_revision\":,</html>"))) none).err
      = some .versionNotFound :=
  ((C3_not_found_iff_200_and_no_match
      (envWith (.ok (respOk 200 "<html>\"client_revision\":,</html>"))) none).1
    (respOk 200 "<html>\"client_revision\":,</html>") (responds_envWith _) rfl rfl
    ((FindSubmatch_eq_nil_iff _).1 (by decide))).2

/-- C4 at the status-200 body
`"client_revision":4294967297,"client_revision":1,`: the leftmost match, at
offset 0, captures 4294967297, a later match, at offset 29, captures 1, and
the call succeeds with build 1, the number of the later match, not 4294967297. -/
theorem C4_failing_input_build_is_later_number :
    Responds
      (envWith (.ok (respOk 200 "\"client_revision\":4294967297,\"client_revision\":1,")))
      none (respOk 200 "\"client_revision\":4294967297,\"client_revision\":1,") ∧
    OccursAt (respOk 200 "\"client_revision\":4294967297,\"client_revision\":1,").data 0
      (bytesOf "4294967297") ∧
    (∀ k ds, OccursAt
      (respOk 200 "\"client_revision\":4294967297,\"client_revision\":1,").data k ds → 0 ≤ k) ∧
    OccursAt (respOk 200 "\"client_revision\":4294967297,\"client_revision\":1,").data 29
      (bytesOf "1") ∧
    ParseInt (bytesOf "4294967297") 10 64 = (4294967297, none) ∧
    (GetLatestVersion
      (envWith (.ok (respOk 200 "\"client_revision\":4294967297,\"client_revision\":1,")))
      none).ver = some ⟨2, 3000, 1⟩ ∧
    (GetLatestVersion
      (envWith (.ok (respOk 200 "\"client_revision\":4294967297,\"client_revision\":1,")))
      none).err = none := by
  refine ⟨responds_envWith _,
    ⟨[], bytesOf "\"client_revision\":1,", by decide, rfl, by decide,
      allDigits_of_all (by decide)⟩,
    fun k _ _ => Nat.zero_le k,
    ⟨bytesOf "\"client_revision\":4294967297,", [], by decide, by decide, by decide,
      allDigits_of_all (by decide)⟩,
    by decide, by decide, by decide⟩

/-- C5, as stated, fails: for the status-200 body
`"client_revision":9223372036854775808,` the pattern matches and captures
digits only, yet `ParseInt` fails (out of range) and the call returns the
version-parse error. -/
theorem C5_counterexample_parse_error_reachable :
    FirstMatch (respOk 200 "\"client_revision\":9223372036854775808,").data
      (bytesOf "9223372036854775808") ∧
    AllDigits (bytesOf "9223372036854775808") ∧
    ParseInt (bytesOf "9223372036854775808") 10 64
      = (9223372036854775807,
          some ⟨"ParseInt", bytesOf "9223372036854775808", .ErrRange⟩) ∧
    (GetLatestVersion
      (envWith (.ok (respOk 200 "\"client_revision\":9223372036854775808,"))) none).err
      = some (.parseVersion ⟨"ParseInt", bytesOf "9223372036854775808", .ErrRange⟩) := by
  refine ⟨firstMatch_head _ [] (by decide) (by decide) (by decide),
    allDigits_of_all (by decide), by decide, by decide⟩

/-- C5, amended: whenever the pattern matches in a body, the text captured by
`FindSubmatch` is a non-empty sequence of ASCII digits; `ParseInt` succeeds on
it exactly when its decimal value is at most 2^63 - 1, giving that value, and
otherwise fails with a range error, never with a syntax error.  The
version-parse error branch of GetLatestVersion is reachable, by out-of-range
digits only: the call returns the version-parse error exactly when the
transport answers with status 200, the body is read and the digits captured by
its leftmost match have a value above 2^63 - 1, and the wrapped cause is then
the range error of `ParseInt` on these digits. -/
theorem C5_parse_error_iff_digits_out_of_range {E H : Type} (env : Env E H)
    (httpClient : Option (Client E H)) :
    (∀ body : Bytes, clientVersionRegex.FindSubmatch body ≠ [] →
      (clientVersionRegex.FindSubmatch body).getD 1 [] ≠ [] ∧
      AllDigits ((clientVersionRegex.FindSubmatch body).getD 1 []) ∧
      (decimalValue ((clientVersionRegex.FindSubmatch body).getD 1 []) ≤ 2 ^ 63 - 1 →
        ParseInt ((clientVersionRegex.FindSubmatch body).getD 1 []) 10 64
          = ((decimalValue ((clientVersionRegex.FindSubmatch body).getD 1 []) : Int), none)) ∧
      (2 ^ 63 - 1 < decimalValue ((clientVersionRegex.FindSubmatch body).getD 1 []) →
        ParseInt ((clientVersionRegex.FindSubmatch body).getD 1 []) 10 64
          = (2 ^ 63 - 1, some ⟨"ParseInt", (clientVersionRegex.FindSubmatch body).getD 1 [],
              .ErrRange⟩))) ∧
    (∀ e, (GetLatestVersion env httpClient).err = some (.parseVersion e) →
      ∃ resp ds, Responds env httpClient resp ∧ resp.readErr = none ∧
        resp.StatusCode = 200 ∧ FirstMatch resp.data ds ∧
        (clientVersionRegex.FindSubmatch resp.data).getD 1 [] = ds ∧
        ds ≠ [] ∧ AllDigits ds ∧ 2 ^ 63 - 1 < decimalValue ds ∧
        e = ⟨"ParseInt", ds, .ErrRange⟩) ∧
    (∀ resp ds, Responds env httpClient resp → resp.readErr = none →
      resp.StatusCode = 200 → FirstMatch resp.data ds → 2 ^ 63 - 1 < decimalValue ds →
      (GetLatestVersion env httpClient).ver = none ∧
      (GetLatestVersion env httpClient).err
        = some (.parseVersion ⟨"ParseInt", ds, .ErrRange⟩)) := by
  refine ⟨?_, ?_, ?_⟩
  · intro body hmatch
    have hc : ContainsMatch body := by
      by_contra hno
      exact hmatch (FindSubmatch_of_no_match body hno)
    obtain ⟨ds, hf⟩ := exists_firstMatch hc
    obtain ⟨hne, hd⟩ := firstMatch_digits hf
    have hcap : (clientVersionRegex.FindSubmatch body).getD 1 [] = ds := by
      rw [FindSubmatch_of_firstMatch hf]
      rfl
    rw [hcap, ParseInt_digits ds hne hd]
    refine ⟨hne, hd, ?_, ?_⟩
    · intro h
      have : decimalValue ds < 2 ^ 63 := by omega
      rw [if_pos this]
    · intro h
      have : ¬ decimalValue ds < 2 ^ 63 := by omega
      rw [if_neg this]
  · intro e herr
    rcases GetLatestVersion_cases env httpClient with ⟨e1, _, h⟩ | ⟨req, e1, _, _, h⟩ |
      ⟨resp, hresp, h⟩
    · rw [h] at herr; simp at herr
    · rw [h] at herr; simp at herr
    · rw [h] at herr
      rcases afterDefer_cases resp with ⟨e1, _, ha⟩ | ⟨_, _, ha⟩ | ⟨_, _, _, ha⟩ |
        ⟨ds, hr, hs, hf, hv, ha⟩ | ⟨ds, _, _, _, _, ha⟩
      · rw [ha] at herr; simp at herr
      · rw [ha] at herr; simp at herr
      · rw [ha] at herr; simp at herr
      · rw [ha] at herr
        obtain ⟨hne, hd⟩ := firstMatch_digits hf
        have he : (⟨"ParseInt", ds, .ErrRange⟩ : NumError) = e := by
          simpa using herr
        have hcap : (clientVersionRegex.FindSubmatch resp.data).getD 1 [] = ds := by
          rw [FindSubmatch_of_firstMatch hf]
          rfl
        exact ⟨resp, ds, hresp, hr, hs, hf, hcap, hne, hd, by omega, he.symm⟩
      · rw [ha] at herr; simp at herr
  · intro resp ds hresp hread hstatus hfirst hbig
    have hv : ¬ decimalValue ds < 2 ^ 63 := by omega
    rw [GetLatestVersion_of_response hresp, afterDefer_firstMatch hread hstatus hfirst,
      if_neg hv]
    exact ⟨rfl, rfl⟩

/-- C5 at the status-200 body `"client_revision":18446744073709551616,`: the
call returns the version-parse error wrapping the range error; and at the body
`x"client_revision":42,` the captured text is not empty. -/
theorem C5_witness_out_of_range_and_42 :
    (GetLatestVersion
      (envWith (.ok (respOk 200 "\"client_revision\":18446744073709551616,"))) none).err
      = some (.parseVersion ⟨"ParseInt", bytesOf "18446744073709551616", .ErrRange⟩) ∧
    (clientVersionRegex.FindSubmatch (bytesOf "x\"client_revision\":42,")).getD 1 [] ≠ [] :=
  have h := C5_parse_error_iff_digits_out_of_range
    (envWith (.ok (respOk 200 "\"client_revision\":18446744073709551616,"))) none
  ⟨(h.2.2 (respOk 200 "\"client_revision\":18446744073709551616,")
      (bytesOf "18446744073709551616") (responds_envWith _) rfl rfl
      (firstMatch_head _ [] (by decide) (by decide) (by decide)) (by decide)).2,
    (h.1 (bytesOf "x\"client_revision\":42,") (by decide)).1⟩

/-- C6: when the request is built and executing it returns the error `e`,
GetLatestVersion returns no version and the send error, whose wrapped cause
(`Unwrap`) is `e`; the effects are building the request and one send: no body
is read or closed and nothing is retried. -/
theorem C6_transport_error_is_wrapped {E H : Type} (env : Env E H)
    (httpClient : Option (Client E H)) (req : Request H) (e : E)
    (hreq : env.NewRequest "GET" env.Origin = .ok req)
    (hdo : (httpClient.getD env.DefaultClient).Do
      { req with Header := some env.dynamicHeaders } = .error e) :
    (GetLatestVersion env httpClient).ver = none ∧
    (∃ err, (GetLatestVersion env httpClient).err = some err ∧
      err.Unwrap = some (.collaborator e)) ∧
    (GetLatestVersion env httpClient).trace = [.newRequest, .send] := by
  have h : GetLatestVersion env httpClient =
      ⟨none, some (.sendRequest e), [.newRequest, .send]⟩ := by
    simp only [GetLatestVersion, hreq, hdo]
  rw [h]
  exact ⟨rfl, ⟨_, rfl, rfl⟩, rfl⟩

/-- C6 at a transport that refuses the connection. -/
theorem C6_witness_connection_refused :
    (GetLatestVersion (envWith (.error "connection refused")) none).trace
      = [.newRequest, .send] :=
  (C6_transport_error_is_wrapped (envWith (.error "connection refused")) none
    ⟨"GET", "https://web.whatsapp.com", none⟩ "connection refused" rfl rfl).2.2

/-- C7: whenever the transport returns a response, whatever the response is
(body-read failure, non-200 status, no match, parse failure or success), the
effects of GetLatestVersion are: build the request, send it, read the body,
close the body; the body is closed exactly once, as the last effect. -/
theorem C7_body_closed_exactly_once {E H : Type} (env : Env E H)
    (httpClient : Option (Client E H)) (resp : Response E)
    (hresp : Responds env httpClient resp) :
    (GetLatestVersion env httpClient).trace = [.newRequest, .send, .readBody, .closeBody] ∧
    (GetLatestVersion env httpClient).trace.count .closeBody = 1 ∧
    (GetLatestVersion env httpClient).trace.getLast? = some .closeBody := by
  rw [GetLatestVersion_of_response hresp]
  simp only [afterDefer_effects]
  exact ⟨rfl, by decide, rfl⟩

/-- C7 at a response whose body cannot be read. -/
theorem C7_witness_read_failure :
    (GetLatestVersion (envWith (.ok ⟨200, [], some "unexpected EOF"⟩)) none).trace.count
      .closeBody = 1 :=
  (C7_body_closed_exactly_once (envWith (.ok ⟨200, [], some "unexpected EOF"⟩)) none
    ⟨200, [], some "unexpected EOF"⟩ (responds_envWith _)).2.1

/-- C8: GetLatestVersion returns exactly one of a version and an error, and
the error is that of the first failing step in the order request
construction, request execution, body read, status check, pattern match,
integer parse: a body-read failure is reported whatever the status, a non-200
status whatever the body; when no step fails the version is returned. -/
theorem C8_first_failing_step_is_reported {E H : Type} (env : Env E H)
    (httpClient : Option (Client E H)) :
    (((GetLatestVersion env httpClient).ver.isSome = true ∧
        (GetLatestVersion env httpClient).err = none) ∨
      ((GetLatestVersion env httpClient).ver = none ∧
        (GetLatestVersion env httpClient).err.isSome = true)) ∧
    (∀ e, env.NewRequest "GET" env.Origin = .error e →
      (GetLatestVersion env httpClient).err = some (.prepareRequest e)) ∧
    (∀ req e, env.NewRequest "GET" env.Origin = .ok req →
      (httpClient.getD env.DefaultClient).Do { req with Header := some env.dynamicHeaders }
        = .error e →
      (GetLatestVersion env httpClient).err = some (.sendRequest e)) ∧
    (∀ resp e, Responds env httpClient resp → resp.readErr = some e →
      (GetLatestVersion env httpClient).err = some (.readResponse e)) ∧
    (∀ resp, Responds env httpClient resp → resp.readErr = none → resp.StatusCode ≠ 200 →
      (GetLatestVersion env httpClient).err
        = some (.unexpectedStatus resp.StatusCode resp.data)) ∧
    (∀ resp, Responds env httpClient resp → resp.readErr = none → resp.StatusCode = 200 →
      ¬ ContainsMatch resp.data →
      (GetLatestVersion env httpClient).err = some .versionNotFound) ∧
    (∀ resp ds, Responds env httpClient resp → resp.readErr = none →
      resp.StatusCode = 200 → FirstMatch resp.data ds → 2 ^ 63 - 1 < decimalValue ds →
      (GetLatestVersion env httpClient).err
        = some (.parseVersion ⟨"ParseInt", ds, .ErrRange⟩)) ∧
    (∀ resp ds, Responds env httpClient resp → resp.readErr = none →
      resp.StatusCode = 200 → FirstMatch resp.data ds → decimalValue ds ≤ 2 ^ 63 - 1 →
      (GetLatestVersion env httpClient).err = none ∧
      (GetLatestVersion env httpClient).ver
        = some ⟨2, 3000, decimalValue ds % 2 ^ 32⟩) := by
  refine ⟨?_, ?_, ?_, ?_, ?_, ?_, ?_, ?_⟩
  · rcases GetLatestVersion_cases env httpClient with ⟨e, _, h⟩ | ⟨req, e, _, _, h⟩ |
      ⟨resp, hresp, h⟩
    · rw [h]; exact Or.inr ⟨rfl, rfl⟩
    · rw [h]; exact Or.inr ⟨rfl, rfl⟩
    · rw [h]
      rcases afterDefer_cases resp with ⟨e, _, ha⟩ | ⟨_, _, ha⟩ | ⟨_, _, _, ha⟩ |
        ⟨ds, _, _, _, _, ha⟩ | ⟨ds, _, _, _, _, ha⟩
      · rw [ha]; exact Or.inr ⟨rfl, rfl⟩
      · rw [ha]; exact Or.inr ⟨rfl, rfl⟩
      · rw [ha]; exact Or.inr ⟨rfl, rfl⟩
      · rw [ha]; exact Or.inr ⟨rfl, rfl⟩
      · rw [ha]; exact Or.inl ⟨rfl, rfl⟩
  · intro e he
    simp only [GetLatestVersion, he]
  · intro req e hreq hdo
    simp only [GetLatestVersion, hreq, hdo]
  · intro resp e hresp hread
    rw [GetLatestVersion_of_response hresp, afterDefer_readErr hread]
  · intro resp hresp hread hstatus
    rw [GetLatestVersion_of_response hresp, afterDefer_status hread hstatus]
  · intro resp hresp hread hstatus hno
    rw [GetLatestVersion_of_response hresp, afterDefer_no_match hread hstatus hno]
  · intro resp ds hresp hread hstatus hfirst hbig
    have hv : ¬ decimalValue ds < 2 ^ 63 := by omega
    rw [GetLatestVersion_of_response hresp, afterDefer_firstMatch hread hstatus hfirst,
      if_neg hv]
  · intro resp ds hresp hread hstatus hfirst hsmall
    have hv : decimalValue ds < 2 ^ 63 := by omega
    rw [GetLatestVersion_of_response hresp, afterDefer_firstMatch hread hstatus hfirst,
      if_pos hv]
    exact ⟨rfl, rfl⟩

/-- C8 at a response with status 404 whose body cannot be read: the read
failure is the one reported. -/
theorem C8_witness_read_failure_before_status :
    (GetLatestVersion (envWith (.ok ⟨404, [], some "unexpected EOF"⟩)) none).err
      = some (.readResponse "unexpected EOF") :=
  (C8_first_failing_step_is_reported (envWith (.ok ⟨404, [], some "unexpected EOF"⟩))
    none).2.2.2.1 ⟨404, [], some "unexpected EOF"⟩ "unexpected EOF" (responds_envWith _) rfl

/-- C9: when the transport answers with status 200, the body is read and the
digits captured by its leftmost match have a value `n` with
`0 ≤ n ≤ 2^63 - 1`, GetLatestVersion succeeds with build `n mod 2^32`; the
build equals `n` if and only if `n < 2^32`. -/
theorem C9_build_is_value_mod_2_pow_32 {E H : Type} (env : Env E H)
    (httpClient : Option (Client E H)) (resp : Response E) (ds : Bytes)
    (hresp : Responds env httpClient resp) (hread : resp.readErr = none)
    (hstatus : resp.StatusCode = 200) (hfirst : FirstMatch resp.data ds)
    (hrange : decimalValue ds ≤ 2 ^ 63 - 1) :
    (GetLatestVersion env httpClient).ver = some ⟨2, 3000, decimalValue ds % 2 ^ 32⟩ ∧
    (GetLatestVersion env httpClient).err = none ∧
    (∀ v, (GetLatestVersion env httpClient).ver = some v →
      (v.build = decimalValue ds ↔ decimalValue ds < 2 ^ 32)) := by
  have hv : decimalValue ds < 2 ^ 63 := by omega
  rw [GetLatestVersion_of_response hresp, afterDefer_firstMatch hread hstatus hfirst,
    if_pos hv]
  refine ⟨rfl, rfl, ?_⟩
  intro v hv'
  have hveq : (⟨2, 3000, decimalValue ds % 2 ^ 32⟩ : WAVersionContainer) = v := by
    simpa using hv'
  subst hveq
  show decimalValue ds % 2 ^ 32 = decimalValue ds ↔ decimalValue ds < 2 ^ 32
  constructor
  · intro h
    rw [← h]
    exact Nat.mod_lt _ (by decide)
  · intro h
    exact Nat.mod_eq_of_lt h

/-- C9 at the body `"client_revision":4294967296,`: build 0 and no error. -/
theorem C9_witness_4294967296 :
    (GetLatestVersion (envWith (.ok (respOk 200 "\"client_revision\":4294967296,"))) none).ver
      = some ⟨2, 3000, 0⟩ ∧
    (GetLatestVersion (envWith (.ok (respOk 200 "\"client_revision\":4294967296,"))) none).err
      = none :=
  have h := C9_build_is_value_mod_2_pow_32
    (envWith (.ok (respOk 200 "\"client_revision\":4294967296,"))) none
    (respOk 200 "\"client_revision\":4294967296,") (bytesOf "4294967296")
    (responds_envWith _) rfl rfl
    (firstMatch_head _ [] (by decide) (by decide) (by decide)) (by decide)
  ⟨h.1.trans (by decide), h.2.1⟩

/-- C10: when the transport answers and the body is read, GetLatestVersion
succeeds if and only if the status code is 200, the body contains a match of
the pattern and the digits captured by the leftmost match have a value of at
most 2^63 - 1; when the status is 200 and the leftmost match captures a larger
value, the call fails with the parse error, whatever follows that match. -/
theorem C10_success_iff_200_match_in_range {E H : Type} (env : Env E H)
    (httpClient : Option (Client E H)) (resp : Response E)
    (hresp : Responds env httpClient resp) (hread : resp.readErr = none) :
    (((GetLatestVersion env httpClient).ver.isSome = true ∧
        (GetLatestVersion env httpClient).err = none) ↔
      (resp.StatusCode = 200 ∧ ContainsMatch resp.data ∧
        ∃ ds, FirstMatch resp.data ds ∧ decimalValue ds ≤ 2 ^ 63 - 1)) ∧
    (∀ ds, resp.StatusCode = 200 → FirstMatch resp.data ds → 2 ^ 63 - 1 < decimalValue ds →
      (GetLatestVersion env httpClient).ver = none ∧
      (GetLatestVersion env httpClient).err
        = some (.parseVersion ⟨"ParseInt", ds, .ErrRange⟩)) := by
  rw [GetLatestVersion_of_response hresp]
  constructor
  · constructor
    · rintro ⟨hver, herr⟩
      rcases afterDefer_cases resp with ⟨e, he, _⟩ | ⟨_, _, ha⟩ | ⟨_, _, _, ha⟩ |
        ⟨ds, _, _, _, _, ha⟩ | ⟨ds, _, hs, hf, hv, _⟩
      · rw [hread] at he; simp at he
      · rw [ha] at herr; simp at herr
      · rw [ha] at herr; simp at herr
      · rw [ha] at herr; simp at herr
      · obtain ⟨i, hocc, _⟩ := hf
        exact ⟨hs, ⟨i, ds, hocc⟩, ds, ⟨i, hocc, by assumption⟩, by omega⟩
    · rintro ⟨hs, _, ds, hf, hv⟩
      have hv' : decimalValue ds < 2 ^ 63 := by omega
      rw [afterDefer_firstMatch hread hs hf, if_pos hv']
      exact ⟨rfl, rfl⟩
  · intro ds hs hf hbig
    have hv : ¬ decimalValue ds < 2 ^ 63 := by omega
    rw [afterDefer_firstMatch hread hs hf, if_neg hv]
    exact ⟨rfl, rfl⟩

/-- C10 at a body whose first marker has twenty digits and whose second marker
is in range: the call fails with the parse error. -/
theorem C10_witness_first_marker_out_of_range :
    (GetLatestVersion (envWith (.ok
      (respOk 200 "\"client_revision\":99999999999999999999,\"client_revision\":5,"))) none).err
      = some (.parseVersion ⟨"ParseInt", bytesOf "99999999999999999999", .ErrRange⟩) :=
  ((C10_success_iff_200_match_in_range
    (envWith (.ok
      (respOk 200 "\"client_revision\":99999999999999999999,\"client_revision\":5,"))) none
    (respOk 200 "\"client_revision\":99999999999999999999,\"client_revision\":5,")
    (responds_envWith _) rfl).2 (bytesOf "99999999999999999999") rfl
    (firstMatch_head _ (bytesOf "\"client_revision\":5,") (by decide) (by decide) (by decide))
    (by decide)).2

end Whatsmeow
